import Mathlib

/-!
Verification of `maxtime` (src/main.rs): a program that computes the maximum
modification timestamp over a directory tree using the `ignore` crate's
parallel walker, and optionally persists it to a stamp file.

Timestamps are modelled as `Int` nanoseconds since the Unix epoch: a Rust
`SystemTime` is an instant that may lie before the epoch, and
`time::OffsetDateTime::from(t).unix_timestamp_nanos()` yields a signed 128-bit
nanosecond count, which `Int` embeds faithfully. The `time` crate's
`OffsetDateTime` only represents dates from -9999-01-01 to 9999-12-31 (without
the large-dates feature): `From<SystemTime>` adds a duration to the epoch date
and aborts the process for instants outside that range, so the conversion at
main.rs line 127 is a partial function of the instant; `unixTimestampNanos`
below models it exactly, and `mainRun` models the run's tail for computed
maxima inside that range (where the conversion is total and the identity on
the nanosecond count).
-/

namespace Maxtime

/-- Nanoseconds since the epoch; `UNIX_EPOCH` itself is 0. -/
def UNIX_EPOCH : Int := 0

/-- The `ignore::WalkState` enum returned by a visitor. -/
inductive WalkState where
  | Continue
  | Skip
  | Quit
deriving Repr, DecidableEq

/-- One argument to `MtimeVisitor::visit`: a `Result<ignore::DirEntry, ignore::Error>`
together with the outcome of the subsequent `mtime(entry.path())` metadata read.
`ok (Except.ok t)` is an entry whose mtime was read as `t` nanoseconds since the
epoch; `ok (Except.error m)` is an entry whose metadata read failed with message
`m`; `err m` is a traversal error surfaced by the walker itself. -/
inductive Entry where
  | ok (mtimeResult : Except String Int)
  | err (msg : String)
deriving Repr

instance : DecidableEq (Except String Int) := fun a b =>
  match a, b with
  | .ok x, .ok y => decidable_of_iff (x = y) (by constructor <;> (intro h; first | rw [h] | injection h))
  | .ok _, .error _ => isFalse (by intro h; injection h)
  | .error _, .ok _ => isFalse (by intro h; injection h)
  | .error x, .error y => decidable_of_iff (x = y) (by constructor <;> (intro h; first | rw [h] | injection h))

instance : DecidableEq Entry := fun a b =>
  match a, b with
  | .ok x, .ok y => decidable_of_iff (x = y) (by constructor <;> (intro h; first | rw [h] | injection h))
  | .ok _, .err _ => isFalse (by intro h; injection h)
  | .err _, .ok _ => isFalse (by intro h; injection h)
  | .err x, .err y => decidable_of_iff (x = y) (by constructor <;> (intro h; first | rw [h] | injection h))

/-- The per-worker visitor state: `thread_max_mtime` from src/main.rs. -/
structure MtimeVisitor where
  thread_max_mtime : Int
deriving Repr, DecidableEq

/-- `MtimeVisitor::new`: the thread-local maximum starts at `UNIX_EPOCH`. -/
def MtimeVisitor.new : MtimeVisitor := ⟨UNIX_EPOCH⟩

/-- `impl Drop for MtimeVisitor`: fold the thread-local maximum into the shared
maximum under the mutex: `*max_mtime = max_mtime.max(self.thread_max_mtime)`. -/
def MtimeVisitor.drop (v : MtimeVisitor) (max_mtime : Int) : Int :=
  max max_mtime v.thread_max_mtime

/-- Result of one `visit` call: the updated visitor, the updated shared error
flag, the returned `WalkState`, and how many diagnostic lines were printed to
stderr by this call. -/
structure VisitResult where
  visitor : MtimeVisitor
  error : Bool
  state : WalkState
  stderrLines : Nat
deriving Repr, DecidableEq

/-- `MtimeVisitor::visit` from src/main.rs lines 52-79: on a successful entry
whose mtime reads as `t`, set `thread_max_mtime := max thread_max_mtime t` and
continue; on a metadata error or a walker error, print one diagnostic line,
store `true` into the shared error flag, and return `Quit`. -/
def MtimeVisitor.visit (v : MtimeVisitor) (error : Bool) (e : Entry) : VisitResult :=
  match e with
  | .ok (.ok t) => ⟨⟨max v.thread_max_mtime t⟩, error, .Continue, 0⟩
  | .ok (.error _) => ⟨v, true, .Quit, 1⟩
  | .err _ => ⟨v, true, .Quit, 1⟩

/-- Outcome of one worker processing a list of entries. -/
structure WorkerResult where
  visitor : MtimeVisitor
  error : Bool
  stderrLines : Nat
deriving Repr, DecidableEq

/-- Run one worker's visit loop over its entries: the walker keeps calling
`visit` until the list is exhausted or the visitor returns `Quit`. -/
def runVisits (v : MtimeVisitor) (error : Bool) (lines : Nat) : List Entry → WorkerResult
  | [] => ⟨v, error, lines⟩
  | e :: rest =>
    let r := v.visit error e
    match r.state with
    | .Quit => ⟨r.visitor, r.error, lines + r.stderrLines⟩
    | _ => runVisits r.visitor r.error (lines + r.stderrLines) rest

/-- A whole worker lifetime: built by `MtimeVisitorBuilder::build` with a fresh
`MtimeVisitor::new`, it visits its entries and reports its result. -/
def runWorker (es : List Entry) : WorkerResult :=
  runVisits MtimeVisitor.new false 0 es

/-- Aggregate state of a run: the shared `max_mtime` cell, the shared
`AtomicBool` error flag, and the total stderr diagnostic lines. -/
structure RunResult where
  shared : Int
  error : Bool
  stderrLines : Nat
deriving Repr, DecidableEq

/-- One worker's full lifetime folded onto the aggregate state: the worker is
built fresh by `MtimeVisitorBuilder::build`, visits its entry stream, and its
`Drop` folds its thread-local maximum into the shared maximum at retirement. -/
def runAllStep (acc : RunResult) (es : List Entry) : RunResult :=
  let w := runVisits MtimeVisitor.new acc.error 0 es
  ⟨w.visitor.drop acc.shared, w.error, acc.stderrLines + w.stderrLines⟩

/-- A full parallel walk over a partition of the entries: each inner list is the
stream of entries the walker pushes to one worker. The shared cell is
initialized to `UNIX_EPOCH` and the error flag to `false` by
`MtimeVisitorBuilder::default`. -/
def runAll (partition : List (List Entry)) : RunResult :=
  partition.foldl runAllStep ⟨UNIX_EPOCH, false, 0⟩

/-- One worker's lifetime when the walker cancels it after dispatching only the
first `pc.2` of its entries (cooperative cancellation: the quit signal is
observed at a dispatch point, so the worker visits only a prefix; it also stops
at its own first error). Its `Drop` still folds whatever it accumulated. -/
def runAllCutStep (acc : RunResult) (pc : List Entry × Nat) : RunResult :=
  let w := runVisits MtimeVisitor.new acc.error 0 (pc.1.take pc.2)
  ⟨w.visitor.drop acc.shared, w.error, acc.stderrLines + w.stderrLines⟩

/-- A parallel walk in which worker `i` is cut off (by cancellation) after its
first `cuts[i]` entries. -/
def runAllCut (partition : List (List Entry)) (cuts : List Nat) : RunResult :=
  (partition.zip cuts).foldl runAllCutStep ⟨UNIX_EPOCH, false, 0⟩

/-- The mtimes successfully readable from a worker's entry stream, in order. -/
def mtimesOf : List Entry → List Int
  | [] => []
  | .ok (.ok t) :: rest => t :: mtimesOf rest
  | _ :: rest => mtimesOf rest

/-- Whether an entry is a successfully read mtime. -/
def Entry.isClean : Entry → Bool
  | .ok (.ok _) => true
  | _ => false

/-- An entry stream is clean when every entry is a successfully read mtime. -/
def cleanEntries (es : List Entry) : Prop :=
  ∀ e ∈ es, e.isClean = true

instance (es : List Entry) : Decidable (cleanEntries es) := by
  unfold cleanEntries
  infer_instance

/-! The tail of `main` (src/main.rs lines 106-141): after the walk, read the
error flag and the shared maximum; on error, `bail!` (non-zero exit) without
printing the timestamp or touching the stamp file; otherwise convert the
maximum to nanoseconds, print it to stdout, and, if a stamp path was given,
write the decimal text plus newline to it and set the stamp file's mtime to the
computed maximum. Either stamp step failing propagates as a non-zero exit. -/

/-- Whether the two stamp-file system calls would succeed: `std::fs::write` and
`filetime::set_file_mtime`. -/
structure StampFS where
  writeOk : Bool
  setMtimeOk : Bool
deriving Repr, DecidableEq

/-- Observable I/O actions of `main`, in program order. -/
inductive Event where
  | printStdout (line : String)
  | stampWrite (content : String)
  | stampSetMtime (t : Int)
deriving Repr, DecidableEq

/-- Observable outcome of `main`: exit code (0 on success, 1 for the `anyhow`
error return), the ordered I/O trace, the stamp file's content after the run
(`none` when this program wrote nothing), and the mtime this program set on
the stamp file (`none` when it set none). -/
structure MainResult where
  exitCode : Nat
  events : List Event
  stampContent : Option String
  stampMtime : Option Int
deriving Repr, DecidableEq

/-- The post-walk half of `main`, as a function of the walk's `RunResult`, of
whether `--stamp` was given, and of whether each stamp system call would
succeed. It is stated for runs whose computed maximum lies inside the `time`
crate's date range (between `timeMinNanos` and `timeMaxNanos` below), where
the nanosecond conversion at main.rs line 127 is total and the identity;
`unixTimestampNanos` models the conversion in general, including the abort
outside that range. -/
def mainRun (walk : RunResult) (stamp : Bool) (fs : StampFS) : MainResult :=
  if walk.error then
    ⟨1, [], none, none⟩
  else
    let n := walk.shared
    let line := toString n
    if stamp then
      if fs.writeOk then
        let content := toString n ++ "\n"
        if fs.setMtimeOk then
          ⟨0, [.printStdout line, .stampWrite content, .stampSetMtime n],
            some content, some n⟩
        else
          ⟨1, [.printStdout line, .stampWrite content], some content, none⟩
      else
        ⟨1, [.printStdout line], none, none⟩
    else

      ⟨0, [.printStdout line], none, none⟩

/-- The earliest instant the `time` crate's `OffsetDateTime` represents,
-9999-01-01T00:00:00 UTC, as nanoseconds since the epoch: -377705116800
seconds (4371587 days of 86400 seconds before 1970-01-01 in the proleptic
Gregorian calendar). -/
def timeMinNanos : Int := -377705116800000000000

/-- The latest instant the `time` crate's `OffsetDateTime` represents,
9999-12-31T23:59:59.999999999 UTC, as nanoseconds since the epoch:
253402300799 seconds plus 999999999 nanoseconds. -/
def timeMaxNanos : Int := 253402300799999999999

/-- The conversion at main.rs line 127,
`time::OffsetDateTime::from(max_mtime).unix_timestamp_nanos()`: for an instant
inside the representable date range it is the identity on the signed 128-bit
nanosecond count (which `Int` embeds); for an instant outside that range the
`From<SystemTime>` impl's duration addition aborts the process — a Rust panic,
modelled here as `none`: the run then fails with a non-zero exit and neither
prints the timestamp nor touches the stamp file. -/
def unixTimestampNanos (t : Int) : Option Int :=
  if timeMinNanos ≤ t ∧ t ≤ timeMaxNanos then some t else none

/-! A finer-grained, interleaved model of the parallel walk, used for the
claims about diagnostic output under concurrency. Each worker either is idle
(between entries), is in flight on one entry (it has passed the quit check and
is reading metadata), or has retired. A schedule chooses which worker moves.
Returning `Quit` from `visit` sets the walker's quit flag; a worker observes
that flag only at its next dispatch point, so a worker already in flight on a
failing entry still prints its own diagnostic line. -/

/-- One worker's state in the interleaved model. -/
structure WorkerProc where
  remaining : List Entry
  inFlight : Option Entry
  threadMax : Int
  retired : Bool
deriving Repr

/-- Global state of the interleaved walk. -/
structure SysState where
  workers : List WorkerProc
  quit : Bool
  error : Bool
  shared : Int
  stderrLines : Nat
deriving Repr

/-- A schedule step: worker `i` either begins its next entry (its dispatch
point, where it checks the quit flag) or finishes its in-flight entry (the
`visit` body runs on the metadata result). -/
inductive Step where
  | beginEntry (i : Nat)
  | finishEntry (i : Nat)
deriving Repr, DecidableEq

/-- Retire worker `i`: its `Drop` impl folds `threadMax` into the shared
maximum. -/
def retireWorker (s : SysState) (i : Nat) (w : WorkerProc) : SysState :=
  { s with
    workers := s.workers.set i { w with retired := true, inFlight := none },
    shared := MtimeVisitor.drop ⟨w.threadMax⟩ s.shared }

/-- Dispatch point of worker `i`: if it is active and idle, it retires when the
quit flag is set or its stream is exhausted, and otherwise takes its next entry
in flight. -/
def stepBegin (s : SysState) (i : Nat) : SysState :=
  match s.workers.get? i with
  | none => s
  | some w =>
    if w.retired ∨ w.inFlight.isSome then s
    else if s.quit then retireWorker s i w
    else
      match w.remaining with
      | [] => retireWorker s i w
      | e :: rest =>
        { s with workers := s.workers.set i { w with remaining := rest, inFlight := some e } }

/-- Completion of worker `i`'s in-flight entry: the `visit` body runs. A clean
entry updates the thread-local maximum and the worker continues; a failing
entry prints one diagnostic line, stores the error flag, and returns `Quit`,
which stops this worker (it retires) and sets the walker's quit flag. -/
def stepFinish (s : SysState) (i : Nat) : SysState :=
  match s.workers.get? i with
  | none => s
  | some w =>
    match w.inFlight with
    | none => s
    | some e =>
      match e with
      | .ok (.ok t) =>
        let w' : WorkerProc := { w with inFlight := none, threadMax := max w.threadMax t }
        { s with workers := s.workers.set i w' }
      | _ =>
        let s' : SysState :=
          { s with quit := true, error := true, stderrLines := s.stderrLines + 1 }
        retireWorker s' i w

/-- Run a schedule from a state. -/
def runSteps (s : SysState) : List Step → SysState
  | [] => s
  | .beginEntry i :: rest => runSteps (stepBegin s i) rest
  | .finishEntry i :: rest => runSteps (stepFinish s i) rest

/-- Initial interleaved state for a partition of the entries: one worker per
inner list, shared cell at the epoch, no error, no quit, nothing printed. -/
def initSys (partition : List (List Entry)) : SysState :=
  ⟨partition.map (fun es => ⟨es, none, UNIX_EPOCH, false⟩), false, false, UNIX_EPOCH, 0⟩

/-- The shared `max_mtime` cell after a sequence of worker retirements, each
folding its thread-local maximum through `MtimeVisitor`'s `Drop` impl; the cell
starts at `UNIX_EPOCH`. -/
def sharedAfterFolds (ms : List Int) : Int :=
  ms.foldl (fun s m => MtimeVisitor.drop ⟨m⟩ s) UNIX_EPOCH

/-! Helper lemmas about folding `max` over lists of timestamps. -/

theorem foldl_max_shift (l : List Int) (a b : Int) :
    l.foldl max (max a b) = max a (l.foldl max b) := by
  induction l generalizing b with
  | nil => rfl
  | cons c t ih =>
    simp only [List.foldl_cons]
    rw [max_assoc, ih]

theorem le_foldl_max (l : List Int) (b : Int) : b ≤ l.foldl max b := by
  have h := foldl_max_shift l b b
  rw [max_self] at h
  rw [h]
  exact le_max_left _ _

theorem foldl_max_mem_le (l : List Int) (b : Int) : ∀ x ∈ l, x ≤ l.foldl max b := by
  induction l generalizing b with
  | nil => intro x hx; cases hx
  | cons c t ih =>
    intro x hx
    rcases List.mem_cons.mp hx with h | h
    · subst h
      simp only [List.foldl_cons]
      calc x ≤ max b x := le_max_right _ _
        _ ≤ t.foldl max (max b x) := le_foldl_max _ _
    · exact ih (max b c) x h

theorem foldl_max_eq_or_mem (l : List Int) (b : Int) :
    l.foldl max b = b ∨ l.foldl max b ∈ l := by
  induction l generalizing b with
  | nil => exact Or.inl rfl
  | cons c t ih =>
    simp only [List.foldl_cons]
    rcases ih (max b c) with h | h
    · rcases max_choice b c with hm | hm
      · exact Or.inl (by rw [h, hm])
      · exact Or.inr (by rw [h, hm]; exact List.mem_cons_self _ _)
    · exact Or.inr (List.mem_cons_of_mem _ h)

/-! Helper lemmas about the visitor loop. -/

theorem runVisits_clean (es : List Entry) (h : cleanEntries es)
    (v : MtimeVisitor) (error : Bool) (lines : Nat) :
    runVisits v error lines es =
      ⟨⟨(mtimesOf es).foldl max v.thread_max_mtime⟩, error, lines⟩ := by
  induction es generalizing v lines with
  | nil => rfl
  | cons e rest ih =>
    have he : e.isClean = true := h e (List.mem_cons_self _ _)
    match e, he with
    | .ok (.ok t), _ =>
      have hrest : cleanEntries rest := fun x hx => h x (List.mem_cons_of_mem _ hx)
      simp only [runVisits, MtimeVisitor.visit, mtimesOf, List.foldl_cons]
      rw [ih hrest]
      simp

theorem runAll_clean_aux (p : List (List Entry)) (h : ∀ es ∈ p, cleanEntries es)
    (acc : RunResult) :
    p.foldl runAllStep acc =
      ⟨(p.map mtimesOf).foldl (fun s w => max s (w.foldl max 0)) acc.shared,
        acc.error, acc.stderrLines⟩ := by
  induction p generalizing acc with
  | nil => rfl
  | cons es rest ih =>
    have hes : cleanEntries es := h es (List.mem_cons_self _ _)
    have hrest : ∀ x ∈ rest, cleanEntries x := fun x hx => h x (List.mem_cons_of_mem _ hx)
    simp only [List.foldl_cons, List.map_cons]
    rw [ih hrest]
    simp only [runAllStep, runVisits_clean es hes, MtimeVisitor.drop, MtimeVisitor.new,
      UNIX_EPOCH]
    simp

theorem sharedFold_eq_flatten (ws : List (List Int)) (s : Int) (hs : 0 ≤ s) :
    ws.foldl (fun acc w => max acc (w.foldl max 0)) s = ws.flatten.foldl max s := by
  induction ws generalizing s with
  | nil => rfl
  | cons w rest ih =>
    simp only [List.foldl_cons, List.flatten_cons, List.foldl_append]
    have h1 : w.foldl max s = max s (w.foldl max 0) := by
      have h2 := foldl_max_shift w s 0
      rwa [max_comm s 0, max_eq_right hs] at h2
    rw [← h1]
    exact ih _ (le_trans hs (le_foldl_max _ _))

theorem runAll_clean (p : List (List Entry)) (h : ∀ es ∈ p, cleanEntries es) :
    runAll p = ⟨((p.map mtimesOf).flatten).foldl max 0, false, 0⟩ := by
  unfold runAll
  rw [runAll_clean_aux p h]
  simp only [UNIX_EPOCH]
  rw [sharedFold_eq_flatten _ _ le_rfl]

/-! Claim theorems. -/

/-- C1: for every fixed tree (partition of entries pushed to the workers) with
all mtimes at or after the epoch and no errors, the run reports no error and
the shared maximum is exactly the maximum mtime over all visited entries: it
bounds every mtime and is itself one of them (when any entry exists). In
particular, for a directory `d` with mtime T3 containing files `a` (mtime T1)
and `b` (mtime T2) with T1 < T2 and T3 < T2, the reported maximum is exactly
T2. -/
theorem C1_reports_exact_max (p : List (List Entry))
    (hclean : ∀ es ∈ p, cleanEntries es)
    (hpos : ∀ t ∈ (p.map mtimesOf).flatten, 0 ≤ t) :
    (runAll p).error = false ∧
    (mainRun (runAll p) false ⟨true, true⟩).events
      = [Event.printStdout (toString (runAll p).shared)] ∧
    (∀ t ∈ (p.map mtimesOf).flatten, t ≤ (runAll p).shared) ∧
    ((p.map mtimesOf).flatten ≠ [] → (runAll p).shared ∈ (p.map mtimesOf).flatten) ∧
    (∀ T1 T2 T3 : Int, 0 ≤ T1 → 0 ≤ T3 → T1 < T2 → T3 < T2 →
      runAll [[Entry.ok (Except.ok T3), Entry.ok (Except.ok T1), Entry.ok (Except.ok T2)]]
        = ⟨T2, false, 0⟩) := by
  have hall := runAll_clean p hclean
  refine ⟨by rw [hall], by rw [hall]; rfl, ?_, ?_, ?_⟩
  · intro t ht
    rw [hall]
    exact foldl_max_mem_le _ 0 t ht
  · intro hne
    rw [hall]
    rcases foldl_max_eq_or_mem ((p.map mtimesOf).flatten) 0 with h0 | hmem
    · rw [h0]
      cases hl : (p.map mtimesOf).flatten with
      | nil => exact absurd hl hne
      | cons t ts =>
        have h1 : 0 ≤ t := hpos t (by rw [hl]; exact List.mem_cons_self _ _)
        have h2 : t ≤ 0 := by
          have h3 := foldl_max_mem_le ((p.map mtimesOf).flatten) 0 t
            (by rw [hl]; exact List.mem_cons_self _ _)
          rwa [h0] at h3
        have ht0 : t = 0 := le_antisymm h2 h1
        show (0 : Int) ∈ t :: ts
        rw [← ht0]
        exact List.mem_cons_self _ _
    · exact hmem
  · intro T1 T2 T3 h1 h3 h12 h32
    have hc : ∀ es ∈ [[Entry.ok (Except.ok T3), Entry.ok (Except.ok T1),
        Entry.ok (Except.ok T2)]], cleanEntries es := by
      intro es hes
      rw [List.mem_singleton] at hes
      subst hes
      intro e he
      rcases he with _ | ⟨_, _ | ⟨_, _ | ⟨_, h⟩⟩⟩ <;> first | rfl | cases h
    rw [runAll_clean _ hc]
    simp only [List.map, mtimesOf, List.flatten, List.append_nil, List.nil_append,
      List.foldl]
    have hmax : max (max (max 0 T3) T1) T2 = T2 := by omega
    rw [hmax]

/-- Witness for C1 at a concrete partition: two workers, mtimes 1 and 2, and
the concrete three-entry tree with T1 = 1, T2 = 2, T3 = 0. -/
theorem C1_witness :
    (∀ es ∈ [[Entry.ok (Except.ok 1)], [Entry.ok (Except.ok 2)]], cleanEntries es) ∧
    (runAll [[Entry.ok (Except.ok 1)], [Entry.ok (Except.ok 2)]]).error = false ∧
    (runAll [[Entry.ok (Except.ok 1)], [Entry.ok (Except.ok 2)]]).shared
      ∈ (([[Entry.ok (Except.ok 1)], [Entry.ok (Except.ok 2)]].map mtimesOf).flatten) ∧
    runAll [[Entry.ok (Except.ok 0), Entry.ok (Except.ok 1), Entry.ok (Except.ok 2)]]
      = ⟨2, false, 0⟩ := by
  have h := C1_reports_exact_max [[Entry.ok (Except.ok 1)], [Entry.ok (Except.ok 2)]]
    (by decide) (by decide)
  exact ⟨by decide, h.1, h.2.2.2.1 (by decide), h.2.2.2.2 1 2 0 (by decide) (by decide)
    (by decide) (by decide)⟩

/-- C2 fails on the code: an entry whose mtime predates the epoch produces no
error (the run succeeds with exit 0, the value absorbed by the
epoch-initialized maximum, i.e. silently clamped), and an entry whose
nanosecond count needs more than 64 bits — here 2^65 ns, about year 3138,
comfortably inside the `time` crate's year-9999 date range — also produces no
error: the run succeeds with exit 0 and the count is converted and passed
through unchanged. -/
theorem C2_counterexample :
    (runAll [[Entry.ok (Except.ok (-5))]]).error = false ∧
    (runAll [[Entry.ok (Except.ok (-5))]]).shared = 0 ∧
    unixTimestampNanos (runAll [[Entry.ok (Except.ok (-5))]]).shared = some 0 ∧
    (mainRun (runAll [[Entry.ok (Except.ok (-5))]]) false ⟨true, true⟩).exitCode = 0 ∧
    (runAll [[Entry.ok (Except.ok (2 ^ 65))]]).error = false ∧
    (runAll [[Entry.ok (Except.ok (2 ^ 65))]]).shared = 2 ^ 65 ∧
    unixTimestampNanos (runAll [[Entry.ok (Except.ok (2 ^ 65))]]).shared
      = some (2 ^ 65) ∧
    (mainRun (runAll [[Entry.ok (Except.ok (2 ^ 65))]]) false ⟨true, true⟩).exitCode
      = 0 ∧
    (2 ^ 64 : Int) < 2 ^ 65 := by
  decide

/-- C2 amended: the walk never fails because of the mtime's value — whatever
integer `t` the mtime holds, the walk reports no error and the shared maximum
is `max 0 t`: pre-epoch values are silently clamped to the epoch by the
epoch-initialized maxima (the conversion then yields 0), and any count up to
the `time` crate's maximum date of year 9999 — far beyond the unsigned 64-bit
boundary — is converted and passed through unchanged. Only a maximum beyond
that date range makes the conversion abort (a panic, not the reported-error
path): the failure boundary is the year-9999 limit, not 64 bits. -/
theorem C2_amended_no_64bit_check (t : Int) :
    runAll [[Entry.ok (Except.ok t)]] = ⟨max 0 t, false, 0⟩ ∧
    (t < 0 → unixTimestampNanos (runAll [[Entry.ok (Except.ok t)]]).shared = some 0) ∧
    (0 ≤ t → t ≤ timeMaxNanos →
      unixTimestampNanos (runAll [[Entry.ok (Except.ok t)]]).shared = some t) ∧
    (timeMaxNanos < t →
      unixTimestampNanos (runAll [[Entry.ok (Except.ok t)]]).shared = none) := by
  have hc : ∀ es ∈ [[Entry.ok (Except.ok t)]], cleanEntries es := by
    intro es hes
    rw [List.mem_singleton] at hes
    subst hes
    intro e he
    rcases he with _ | ⟨_, h⟩
    · rfl
    · cases h
  have h := runAll_clean _ hc
  simp only [List.map, mtimesOf, List.flatten, List.append_nil, List.nil_append,
    List.foldl] at h
  refine ⟨h, ?_, ?_, ?_⟩
  · intro ht
    rw [h]
    show unixTimestampNanos (max 0 t) = some 0
    rw [max_eq_left (le_of_lt ht)]
    decide
  · intro ht0 htm
    rw [h]
    show unixTimestampNanos (max 0 t) = some t
    rw [max_eq_right ht0, unixTimestampNanos,
      if_pos ⟨le_trans (by decide : timeMinNanos ≤ 0) ht0, htm⟩]
  · intro htm
    rw [h]
    show unixTimestampNanos (max 0 t) = none
    have ht0 : (0 : Int) ≤ t := le_trans (by decide : (0 : Int) ≤ timeMaxNanos)
      (le_of_lt htm)
    rw [max_eq_right ht0, unixTimestampNanos, if_neg]
    intro hcon
    exact absurd hcon.2 (not_le_of_lt htm)

/-- Witness for C2 amended at three concrete mtimes: a pre-epoch one, one past
the 64-bit boundary but inside the date range, and one past the date range. -/
theorem C2_amended_witness :
    unixTimestampNanos (runAll [[Entry.ok (Except.ok (-7))]]).shared = some 0 ∧
    unixTimestampNanos (runAll [[Entry.ok (Except.ok (2 ^ 65))]]).shared
      = some (2 ^ 65) ∧
    unixTimestampNanos (runAll [[Entry.ok (Except.ok (timeMaxNanos + 1))]]).shared
      = none :=
  ⟨(C2_amended_no_64bit_check (-7)).2.1 (by decide),
   (C2_amended_no_64bit_check (2 ^ 65)).2.2.1 (by decide) (by decide),
   (C2_amended_no_64bit_check (timeMaxNanos + 1)).2.2.2 (by decide)⟩

/-- C5: the final shared maximum (indeed the whole run outcome) depends only on
the multiset of entry timestamps: any two error-free partitions of the same
timestamps across workers, in any per-worker order, produce equal results —
max is commutative and associative, so the reduction is deterministic. -/
theorem C5_deterministic (p q : List (List Entry))
    (hp : ∀ es ∈ p, cleanEntries es) (hq : ∀ es ∈ q, cleanEntries es)
    (hperm : ((p.map mtimesOf).flatten).Perm ((q.map mtimesOf).flatten)) :
    runAll p = runAll q := by
  rw [runAll_clean p hp, runAll_clean q hq, hperm.foldl_eq 0]

/-- Witness for C5: timestamps 1 and 2 split across two workers in one run and
given to a single worker in the opposite order in the other. -/
theorem C5_witness :
    runAll [[Entry.ok (Except.ok 1)], [Entry.ok (Except.ok 2)]]
      = runAll [[Entry.ok (Except.ok 2), Entry.ok (Except.ok 1)]] :=
  C5_deterministic _ _ (by decide) (by decide) (by decide)

/-- C6: the shared maximum is monotonically non-decreasing across retirement
folds, and after any sequence of folds it is at least every thread-local
maximum folded into it so far. -/
theorem C6_shared_monotone (ms : List Int) (m : Int) :
    sharedAfterFolds ms ≤ sharedAfterFolds (ms ++ [m]) ∧
    ∀ v ∈ ms, v ≤ sharedAfterFolds ms := by
  have hfold : ∀ l : List Int, sharedAfterFolds l = l.foldl max 0 := fun l => rfl
  constructor
  · rw [hfold, hfold, List.foldl_append]
    exact le_foldl_max _ _
  · intro v hv
    rw [hfold]
    exact foldl_max_mem_le ms 0 v hv

/-- Witness for C6 at folds [1, 2] extended by 3. -/
theorem C6_witness :
    sharedAfterFolds [1, 2] ≤ sharedAfterFolds ([1, 2] ++ [3]) ∧
    (2 : Int) ≤ sharedAfterFolds [1, 2] :=
  ⟨(C6_shared_monotone [1, 2] 3).1, (C6_shared_monotone [1, 2] 3).2 2 (by decide)⟩

/-! More helper lemmas: the shared maximum only grows along the run, and the
visitor computed by the loop does not depend on the incoming error flag or
line count. -/

theorem foldl_runAllStep_shared_le (p : List (List Entry)) (acc : RunResult) :
    acc.shared ≤ (p.foldl runAllStep acc).shared := by
  induction p generalizing acc with
  | nil => exact le_refl _
  | cons es rest ih =>
    refine le_trans ?_ (ih (runAllStep acc es))
    exact le_max_left _ _

theorem foldl_runAllCutStep_shared_le (L : List (List Entry × Nat)) (acc : RunResult) :
    acc.shared ≤ (L.foldl runAllCutStep acc).shared := by
  induction L generalizing acc with
  | nil => exact le_refl _
  | cons pc rest ih =>
    refine le_trans ?_ (ih (runAllCutStep acc pc))
    exact le_max_left _ _

theorem runVisits_visitor_irrel (es : List Entry) (v : MtimeVisitor)
    (e1 e2 : Bool) (l1 l2 : Nat) :
    (runVisits v e1 l1 es).visitor = (runVisits v e2 l2 es).visitor := by
  induction es generalizing v l1 l2 with
  | nil => rfl
  | cons e rest ih =>
    match e with
    | .ok (.ok t) => exact ih _ _ _
    | .ok (.error m) => rfl
    | .err m => rfl

/-- C9: a walk that dispatches no entries at all (each worker is built, visits
nothing and retires) succeeds and reports timestamp 0, the epoch, since every
thread-local maximum and the shared maximum start at `UNIX_EPOCH`; moreover
every run reports at least 0. -/
theorem C9_no_entries_reports_zero (n : Nat) (p : List (List Entry)) :
    runAll (List.replicate n []) = ⟨0, false, 0⟩ ∧
    (mainRun (runAll (List.replicate n [])) false ⟨true, true⟩).exitCode = 0 ∧
    (mainRun (runAll (List.replicate n [])) false ⟨true, true⟩).events
      = [Event.printStdout (toString (0 : Int))] ∧
    0 ≤ (runAll p).shared := by
  have hc : ∀ es ∈ List.replicate n ([] : List Entry), cleanEntries es := by
    intro es hes
    rw [List.eq_of_mem_replicate hes]
    intro e he
    cases he
  have hflat : ((List.replicate n ([] : List Entry)).map mtimesOf).flatten = [] := by
    induction n with
    | zero => rfl
    | succ k ih => simp [List.replicate_succ, mtimesOf, ih]
  have h := runAll_clean _ hc
  rw [hflat] at h
  refine ⟨h, by rw [h]; rfl, by rw [h]; rfl, ?_⟩
  exact foldl_runAllStep_shared_le p ⟨UNIX_EPOCH, false, 0⟩

/-- C7: each worker's thread-local maximum over the entries it successfully
visited — even when it was cut off early by the cancellation signal (only a
prefix of its stream was dispatched) or stopped at its own first error — is
folded into the shared maximum at retirement, so the final shared maximum
bounds it: partial progress is never lost. -/
theorem C7_partial_progress_folded (p : List (List Entry)) (cuts : List Nat)
    (es : List Entry) (k : Nat) (hmem : (es, k) ∈ p.zip cuts) :
    (runWorker (es.take k)).visitor.thread_max_mtime ≤ (runAllCut p cuts).shared := by
  unfold runAllCut
  generalize hL : p.zip cuts = L at hmem
  clear hL
  generalize hacc : (⟨UNIX_EPOCH, false, 0⟩ : RunResult) = acc
  clear hacc
  induction L generalizing acc with
  | nil => cases hmem
  | cons pc rest ih =>
    rcases List.mem_cons.mp hmem with h | h
    · subst h
      refine le_trans ?_ (foldl_runAllCutStep_shared_le rest (runAllCutStep acc (es, k)))
      show (runWorker (es.take k)).visitor.thread_max_mtime
        ≤ max acc.shared (runVisits MtimeVisitor.new acc.error 0 (es.take k)).visitor.thread_max_mtime
      rw [runVisits_visitor_irrel (es.take k) MtimeVisitor.new acc.error false 0 0]
      exact le_max_right _ _
    · exact ih h (runAllCutStep acc pc)

/-- Witness for C7: a worker whose stream is [mtime 9, error] cut off after
both entries still gets its maximum 9 folded. -/
theorem C7_witness :
    (runWorker ([Entry.ok (Except.ok 9), Entry.err "x"].take 2)).visitor.thread_max_mtime
      ≤ (runAllCut [[Entry.ok (Except.ok 9), Entry.err "x"], [Entry.ok (Except.ok 3)]]
          [2, 1]).shared :=
  C7_partial_progress_folded _ _ _ _ (by decide)

/-- C3 fails on the code as stated: when the stamp content write succeeds but
setting the stamp file's mtime fails, the run is a failing run (exit non-zero)
yet the stamp file has already been written by this very run, so "the stamp
file is neither written nor modified" does not hold for stamp I/O failures. -/
theorem C3_counterexample :
    (mainRun (runAll [[Entry.ok (Except.ok 5)]]) true ⟨true, false⟩).exitCode ≠ 0 ∧
    (mainRun (runAll [[Entry.ok (Except.ok 5)]]) true ⟨true, false⟩).stampContent
      = some "5\n" := by
  decide

/-- C3 amended: on any traversal or metadata error the process exits non-zero
and the stamp file is neither written nor modified (and nothing is printed to
stdout); a stamp I/O failure also exits non-zero, and when the failing call is
the content write itself the program writes no stamp content and sets no mtime
— but when only setting the mtime fails, the content write has already
happened. -/
theorem C3_fail_exit_nonzero (walk : RunResult) (stamp : Bool) (fs : StampFS) :
    (walk.error = true → mainRun walk stamp fs = ⟨1, [], none, none⟩) ∧
    ((walk.error = true ∨ (stamp = true ∧ (fs.writeOk = false ∨ fs.setMtimeOk = false))) →
      (mainRun walk stamp fs).exitCode ≠ 0) ∧
    (stamp = true → fs.writeOk = false →
      (mainRun walk stamp fs).stampContent = none ∧
      (mainRun walk stamp fs).stampMtime = none) := by
  rcases walk with ⟨sh, err, ln⟩
  rcases fs with ⟨w, m⟩
  cases err <;> cases stamp <;> cases w <;> cases m <;>
    simp [mainRun]

/-- Witness for C3 amended: a run whose walk failed, with a stamp requested and
healthy stamp I/O, exits 1 and leaves the stamp untouched. -/
theorem C3_witness :
    mainRun ⟨7, true, 1⟩ true ⟨true, true⟩ = ⟨1, [], none, none⟩ ∧
    (mainRun ⟨7, true, 1⟩ true ⟨true, true⟩).exitCode ≠ 0 :=
  ⟨(C3_fail_exit_nonzero ⟨7, true, 1⟩ true ⟨true, true⟩).1 rfl,
   (C3_fail_exit_nonzero ⟨7, true, 1⟩ true ⟨true, true⟩).2.1 (Or.inl rfl)⟩

/-- C4: after a successful run with a stamp path and healthy stamp I/O, the
run exits 0, the stamp file's content is exactly the decimal string of the
computed nanosecond timestamp followed by a newline (the same decimal string
printed to stdout), and the mtime set on the stamp file is that timestamp
itself, not the wall-clock time of writing. -/
theorem C4_stamp_roundtrip (walk : RunResult) (h : walk.error = false) :
    mainRun walk true ⟨true, true⟩ =
      ⟨0,
        [Event.printStdout (toString walk.shared),
         Event.stampWrite (toString walk.shared ++ "\n"),
         Event.stampSetMtime walk.shared],
        some (toString walk.shared ++ "\n"),
        some walk.shared⟩ := by
  rcases walk with ⟨sh, err, ln⟩
  cases err
  · simp [mainRun]
  · cases h

/-- Witness for C4 at the successful run over a single entry with mtime 5. -/
theorem C4_witness :
    mainRun ⟨5, false, 0⟩ true ⟨true, true⟩ =
      ⟨0,
        [Event.printStdout (toString (5 : Int)),
         Event.stampWrite (toString (5 : Int) ++ "\n"),
         Event.stampSetMtime 5],
        some (toString (5 : Int) ++ "\n"),
        some 5⟩ :=
  C4_stamp_roundtrip ⟨5, false, 0⟩ rfl

/-- C10: whenever the walk itself succeeds, the timestamp line is the first
observable I/O action of `main` — it is printed to stdout before any stamp
file I/O is attempted — so even when the stamp write or the mtime update then
fails (non-zero exit), the stdout line has already been emitted. -/
theorem C10_stdout_before_stamp (walk : RunResult) (stamp : Bool) (fs : StampFS)
    (h : walk.error = false) :
    (∃ rest, (mainRun walk stamp fs).events
        = Event.printStdout (toString walk.shared) :: rest) ∧
    (stamp = true → (fs.writeOk = false ∨ fs.setMtimeOk = false) →
      (mainRun walk stamp fs).exitCode ≠ 0 ∧
      Event.printStdout (toString walk.shared) ∈ (mainRun walk stamp fs).events) := by
  rcases walk with ⟨sh, err, ln⟩
  cases err
  · rcases fs with ⟨w, m⟩
    cases stamp <;> cases w <;> cases m <;> simp [mainRun]
  · cases h

/-- Witness for C10: the walk succeeded with maximum 3, the stamp content write
succeeds but the mtime update fails; the stdout line is still first and the
exit code is non-zero. -/
theorem C10_witness :
    (∃ rest, (mainRun ⟨3, false, 0⟩ true ⟨true, false⟩).events
        = Event.printStdout (toString (3 : Int)) :: rest) ∧
    ((mainRun ⟨3, false, 0⟩ true ⟨true, false⟩).exitCode ≠ 0 ∧
      Event.printStdout (toString (3 : Int))
        ∈ (mainRun ⟨3, false, 0⟩ true ⟨true, false⟩).events) :=
  ⟨(C10_stdout_before_stamp ⟨3, false, 0⟩ true ⟨true, false⟩ rfl).1,
   (C10_stdout_before_stamp ⟨3, false, 0⟩ true ⟨true, false⟩ rfl).2 rfl (Or.inr rfl)⟩

/-! Helper lemmas for the interleaved model: a dispatch step never touches the
error flag or the diagnostic count, and a completion step either leaves both
alone or records the error and prints exactly one line. -/

theorem stepBegin_preserves (s : SysState) (i : Nat) :
    (stepBegin s i).error = s.error ∧ (stepBegin s i).stderrLines = s.stderrLines := by
  unfold stepBegin retireWorker
  cases s.workers.get? i with
  | none => exact ⟨rfl, rfl⟩
  | some w =>
    by_cases h1 : w.retired ∨ w.inFlight.isSome
    · simp [h1]
    · by_cases h2 : s.quit
      · simp [h1, h2]
      · rcases hrem : w.remaining with _ | ⟨e, rest⟩ <;> simp [h1, h2, hrem]

theorem stepFinish_cases (s : SysState) (i : Nat) :
    ((stepFinish s i).error = s.error ∧ (stepFinish s i).stderrLines = s.stderrLines) ∨
    ((stepFinish s i).error = true ∧ (stepFinish s i).stderrLines = s.stderrLines + 1) := by
  unfold stepFinish retireWorker
  split
  · exact Or.inl ⟨rfl, rfl⟩
  · split
    · exact Or.inl ⟨rfl, rfl⟩
    · split
      · exact Or.inl ⟨rfl, rfl⟩
      · exact Or.inr ⟨rfl, rfl⟩

theorem runSteps_error_lines (sched : List Step) (s : SysState)
    (h : s.error = true → 1 ≤ s.stderrLines) :
    (runSteps s sched).error = true → 1 ≤ (runSteps s sched).stderrLines := by
  induction sched generalizing s with
  | nil => exact h
  | cons st rest ih =>
    cases st with
    | beginEntry i =>
      refine ih (stepBegin s i) ?_
      intro he
      rw [(stepBegin_preserves s i).2]
      exact h ((stepBegin_preserves s i).1 ▸ he)
    | finishEntry i =>
      refine ih (stepFinish s i) ?_
      intro he
      rcases stepFinish_cases s i with ⟨h1, h2⟩ | ⟨h1, h2⟩
      · rw [h2]
        exact h (h1 ▸ he)
      · rw [h2]
        omega

/-- C8 fails on the code: diagnostics are printed by each worker as it
encounters its error, and cancellation is only cooperative, so two workers that
both pass their quit check and then both fail each print a line — a failing run
with two diagnostic lines, not exactly one. -/
theorem C8_counterexample :
    (runSteps (initSys [[Entry.err "a"], [Entry.err "b"]])
        [Step.beginEntry 0, Step.beginEntry 1, Step.finishEntry 0,
         Step.finishEntry 1]).error = true ∧
    (runSteps (initSys [[Entry.err "a"], [Entry.err "b"]])
        [Step.beginEntry 0, Step.beginEntry 1, Step.finishEntry 0,
         Step.finishEntry 1]).stderrLines = 2 := by
  decide

/-- C8 amended: every failing run writes at least one diagnostic line to the
error stream (the error flag is only ever set together with printing a line);
each worker prints at most one line since it quits at its first error, but
several workers may each report their own failure before observing the
cancellation signal, so the total may exceed one. -/
theorem C8_at_least_one_line (p : List (List Entry)) (sched : List Step)
    (h : (runSteps (initSys p) sched).error = true) :
    1 ≤ (runSteps (initSys p) sched).stderrLines :=
  runSteps_error_lines sched (initSys p)
    (fun hc => absurd hc Bool.false_ne_true) h

/-- Witness for C8 amended: a single worker whose only entry fails. -/
theorem C8_witness :
    1 ≤ (runSteps (initSys [[Entry.err "w"]])
        [Step.beginEntry 0, Step.finishEntry 0]).stderrLines :=
  C8_at_least_one_line [[Entry.err "w"]] [Step.beginEntry 0, Step.finishEntry 0]
    (by decide)

end Maxtime
